import Mathlib

/-!
Verification of the rest-layer-sqlite3 storage handler.

Shallow embedding conventions:
* Go strings are modelled as `List Char` (`GoString`); all the strings the
  handler manipulates are ASCII, so Go's byte slicing coincides with the
  character operations used here.
* Go's dynamically typed `query.Value` (an `interface{}`) is the inductive
  `Value`; a `float64` is carried together with its `%v` rendering, which no
  claim inspects further.
* Functions returning a Go `error` return `Except Err`/`GoRes`; a Go runtime
  panic (out-of-range slice index, failed type assertion) is `GoRes.panic`.
* The datastore is an explicit `Table` value threaded through the CRUD
  operations; executing a statement built by the handler is modelled by its
  SQLite semantics on that table.
-/

abbrev GoString := List Char

/-- The single-quote character used by the SQL literal syntax. -/
def squote : Char := Char.ofNat 39

/-- The decimal digit character for `d % 10`-sized inputs. -/
def digitCh : Nat → Char
  | 0 => '0' | 1 => '1' | 2 => '2' | 3 => '3' | 4 => '4'
  | 5 => '5' | 6 => '6' | 7 => '7' | 8 => '8' | _ => '9'

/-- Decimal digits of `n`, left padded with zeroes to width `w` (Go `%0*d`). -/
def toDigits : Nat → Nat → GoString
  | 0, _ => []
  | w + 1, n => toDigits w (n / 10) ++ [digitCh (n % 10)]

/-- Remove trailing `'0'` characters (Go's `.999999999` fractional layout). -/
def trimZeroes (l : GoString) : GoString :=
  (l.reverse.dropWhile (fun c => c == '0')).reverse

/-- Go `%v` for a natural number. -/
def natText (n : Nat) : GoString := Nat.toDigits 10 n

/-- Go `%v` for an int: decimal digits with a leading minus sign. -/
def intText (n : Int) : GoString :=
  if n < 0 then '-' :: natText n.natAbs else natText n.toNat

/-- A Go `time.Time`, carrying exactly the data its textual forms expose:
broken-down wall clock fields, the zone offset as it is printed (sign,
hours, minutes), the zone abbreviation, and the optional monotonic clock
reading rendered as the text Go appends after ` m=`. -/
structure GoTime where
  year : Nat
  month : Nat
  day : Nat
  hour : Nat
  minute : Nat
  second : Nat
  nanos : Nat
  negOff : Bool
  offHour : Nat
  offMin : Nat
  zone : GoString
  mono : Option GoString
deriving DecidableEq

/-- Fractional-second text of `Time.String()`: empty when zero, otherwise a
dot followed by up to nine digits with trailing zeroes trimmed. -/
def fracText (nanos : Nat) : GoString :=
  if nanos = 0 then [] else '.' :: trimZeroes (toDigits 9 nanos)

/-- Go `time.Time.String()`: the layout `2006-01-02 15:04:05.999999999 -0700 MST`,
with the monotonic clock reading appended as a final ` m=±d.ddddddddd` field
when the time carries one. -/
def goTimeString (t : GoTime) : GoString :=
  toDigits 4 t.year ++ ['-'] ++ toDigits 2 t.month ++ ['-'] ++ toDigits 2 t.day
    ++ [' '] ++ toDigits 2 t.hour ++ [':'] ++ toDigits 2 t.minute ++ [':']
    ++ toDigits 2 t.second ++ fracText t.nanos
    ++ [' '] ++ [if t.negOff then '-' else '+'] ++ toDigits 2 t.offHour ++ toDigits 2 t.offMin
    ++ [' '] ++ t.zone
    ++ (match t.mono with
        | none => []
        | some m => [' ', 'm', '='] ++ m)

/-- The error kinds the handler returns: the three rest-layer resource errors
plus raw engine/driver errors carried with their message text. -/
inductive Err where
  | notFound
  | conflict
  | notImplemented
  | engine (msg : GoString)
deriving DecidableEq

/-- Result of a Go computation: a value, an error, or a runtime panic. -/
inductive GoRes (α : Type) where
  | ok (a : α)
  | err (e : Err)
  | panic
deriving DecidableEq

/-- A `query.Value` (`interface{}`): the scalar types `valueToString` supports
plus `other` for every other dynamic type (e.g. a `[]string`). -/
inductive Value where
  | int (n : Int)
  | float (text : GoString)
  | bool (b : Bool)
  | str (s : GoString)
  | time (t : GoTime)
  | other
deriving DecidableEq

/-- `valueToString` (lookup.go): a type-specific SQL literal. Numbers and
booleans render bare via `%v`; strings and timestamps are wrapped in single
quotes with no escaping of the content; any other type is not implemented. -/
def valueToString : Value → Except Err GoString
  | .int n => .ok (intText n)
  | .float text => .ok text
  | .bool b => .ok (if b then "true".data else "false".data)
  | .str s => .ok (squote :: s ++ [squote])
  | .time t => .ok (squote :: goTimeString t ++ [squote])
  | .other => .error .notImplemented

/-- Go `strings.Replace(s, string c, r, -1)` for a one-character pattern. -/
def goReplace (c : Char) (r : GoString) : GoString → GoString
  | [] => []
  | x :: l => (if x = c then r else [x]) ++ goReplace c r l

/-- The composite wildcard translation the Equal/NotEqual string case performs:
`*` becomes `%` and `_` becomes `\_`, character by character. -/
def likeEsc : GoString → GoString
  | [] => []
  | c :: l =>
    (if c = '*' then "%".data else if c = '_' then "\\_".data else [c]) ++ likeEsc l

theorem goReplace_append (c : Char) (r : GoString) (a b : GoString) :
    goReplace c r (a ++ b) = goReplace c r a ++ goReplace c r b := by
  induction a with
  | nil => rfl
  | cons x l ih => simp [goReplace, ih]

theorem goReplace_star_underscore (l : GoString) :
    goReplace '_' "\\_".data (goReplace '*' "%".data l) = likeEsc l := by
  induction l with
  | nil => rfl
  | cons x l ih =>
    by_cases hs : x = '*'
    · subst hs
      simp [goReplace, likeEsc, goReplace_append, ih]

    · by_cases hu : x = '_'
      · subst hu
        simp [goReplace, likeEsc, goReplace_append, ih]
  
      · simp [goReplace, likeEsc, goReplace_append, ih, hs, hu]

/-- A `query.Predicate` (schema/query): the closed variant set the translator
switches over, with `other` standing for any unrecognized expression type
(the `default` arm of the type switch). -/
inductive Predicate where
  | and (l : List Predicate)
  | or (l : List Predicate)
  | eq (f : GoString) (v : Value)
  | ne (f : GoString) (v : Value)
  | gt (f : GoString) (v : Value)
  | ge (f : GoString) (v : Value)
  | lt (f : GoString) (v : Value)
  | le (f : GoString) (v : Value)
  | inOp (f : GoString) (vs : List Value)
  | ninOp (f : GoString) (vs : List Value)
  | other

/-- The accumulation loop of `valuesToString`: each value's literal followed
by a comma, aborting on the first conversion error. -/
def valuesLoop : List Value → Except Err GoString
  | [] => .ok []
  | v :: rest =>
    match valueToString v with
    | .error e => .error e
    | .ok s =>
      match valuesLoop rest with
      | .error e => .error e
      | .ok r => .ok (s ++ [','] ++ r)

/-- `valuesToString` (lookup.go): comma separated literals, produced by
slicing the trailing comma off the accumulated string.  On an empty value
list the slice `str[:len(str)-1]` has a negative bound and panics. -/
def valuesToString (vs : List Value) : GoRes GoString :=
  match valuesLoop vs with
  | .error e => .err e
  | .ok s => if s.length = 0 then .panic else .ok (s.take (s.length - 1))

/-- Concatenation of the group members, each followed by the separator
(the accumulator `s` of the And/Or branches of `translateQuery`). -/
def joinSeps (sep : GoString) : List GoString → GoString
  | [] => []
  | s :: rest => s ++ sep ++ joinSeps sep rest

mutual
/-- `translateQuery` (lookup.go): the WHERE clause for a query, concatenating
the translation of each top-level expression and aborting on the first
error.  Inside `And`/`Or` the source recurses as `translateQuery(query.Query{subExp})`,
i.e. on one-element queries; that is `transPred` below
(`translateQuery_singleton` records the equivalence). -/
def translateQuery : List Predicate → GoRes GoString
  | [] => .ok []
  | p :: rest =>
    match transPred p with
    | .ok s =>
      match translateQuery rest with
      | .ok s2 => .ok (s ++ s2)
      | r => r
    | r => r

/-- One arm of the expression type switch of `translateQuery`. For `And`/`Or`
the accumulated string `s` ends with the separator, which the source strips
with `s[:len(s)-5]` (resp. `-4`); on an empty child list `s` is empty and
that slice has a negative bound, a runtime panic. -/
def transPred : Predicate → GoRes GoString
  | .and l =>
    match transSubs l with
    | .ok ss =>
      let j := joinSeps " AND ".data ss
      if j.length < 5 then .panic else .ok ('(' :: j.take (j.length - 5) ++ [')'])
    | .err e => .err e
    | .panic => .panic
  | .or l =>
    match transSubs l with
    | .ok ss =>
      let j := joinSeps " OR ".data ss
      if j.length < 4 then .panic else .ok ('(' :: j.take (j.length - 4) ++ [')'])
    | .err e => .err e
    | .panic => .panic
  | .eq f v =>
    match valueToString v with
    | .error _ => .err .notImplemented
    | .ok s =>
      match v with
      | .str _ =>
        .ok (f ++ " LIKE ".data ++ goReplace '_' "\\_".data (goReplace '*' "%".data s)
              ++ " ESCAPE '\\'".data)
      | _ => .ok (f ++ " IS ".data ++ s)
  | .ne f v =>
    match valueToString v with
    | .error _ => .err .notImplemented
    | .ok s =>
      match v with
      | .str _ =>
        .ok (f ++ " NOT LIKE ".data ++ goReplace '_' "\\_".data (goReplace '*' "%".data s)
              ++ " ESCAPE '\\'".data)
      | _ => .ok (f ++ " IS NOT ".data ++ s)
  | .gt f v =>
    match valueToString v with
    | .error _ => .err .notImplemented
    | .ok s => .ok (f ++ " > ".data ++ s)
  | .ge f v =>
    match valueToString v with
    | .error _ => .err .notImplemented
    | .ok s => .ok (f ++ " >= ".data ++ s)
  | .lt f v =>
    match valueToString v with
    | .error _ => .err .notImplemented
    | .ok s => .ok (f ++ " < ".data ++ s)
  | .le f v =>
    match valueToString v with
    | .error _ => .err .notImplemented
    | .ok s => .ok (f ++ " <= ".data ++ s)
  | .inOp f vs =>
    match valuesToString vs with
    | .ok v => .ok (f ++ " IN (".data ++ v ++ [')'])
    | .err _ => .err .notImplemented
    | .panic => .panic
  | .ninOp f vs =>
    match valuesToString vs with
    | .ok v => .ok (f ++ " NOT IN (".data ++ v ++ [')'])
    | .err _ => .err .notImplemented
    | .panic => .panic
  | .other => .err .notImplemented

/-- The child loop of the `And`/`Or` branches: the translations of the
children in order, aborting on the first error. -/
def transSubs : List Predicate → GoRes (List GoString)
  | [] => .ok []
  | e :: rest =>
    match transPred e with
    | .ok s =>
      match transSubs rest with
      | .ok ss => .ok (s :: ss)
      | .err x => .err x
      | .panic => .panic
    | .err x => .err x
    | .panic => .panic
end

/-- The source's recursive call `translateQuery(query.Query{subExp})` on a
one-element query computes exactly the switch arm for that expression. -/
theorem translateQuery_singleton (p : Predicate) : translateQuery [p] = transPred p := by
  simp only [translateQuery]
  match transPred p with
  | .ok s => simp
  | .err e => simp
  | .panic => simp

/-- The entry loop of `translateSort`: each entry, `-`-prefixed ones rewritten
to `<field> DESC`, each followed by a comma.  Indexing `[]rune(s)[0]` of an
empty entry is a runtime panic. -/
def sortLoop : List GoString → GoRes GoString
  | [] => .ok []
  | s :: rest =>
    match s with
    | [] => .panic
    | c :: cs =>
      match sortLoop rest with
      | .ok r => .ok ((if c = '-' then cs ++ " DESC".data else c :: cs) ++ [','] ++ r)
      | r => r

/-- `translateSort` (lookup.go): the ORDER BY clause; an empty specification
compiles to `id`, otherwise the accumulated entries with the trailing comma
sliced off. -/
def translateSort (l : List GoString) : GoRes GoString :=
  if l = [] then .ok "id".data
  else
    match sortLoop l with
    | .ok s => .ok s.dropLast
    | r => r

/-- A `resource.Lookup`: the filter predicates and the sort field list, the
latter `none` when no sort was set (`l.Sort() == nil`). -/
structure Lookup where
  filter : List Predicate
  sort : Option (List GoString)

/-- `getQuery`: the WHERE clause of a Lookup. -/
def getQuery (l : Lookup) : GoRes GoString := translateQuery l.filter

/-- `getSort`: the ORDER BY clause of a Lookup (a nil sort reads as empty). -/
def getSort (l : Lookup) : GoRes GoString :=
  translateSort (match l.sort with | none => [] | some s => s)

/-- A `resource.Item`: identity, version token, last-mutation time and the
field payload (which, per rest-layer, contains an `id` entry equal to the
identity). -/
structure Item where
  id : Value
  etag : GoString
  updated : GoTime
  payload : List (GoString × Value)
deriving DecidableEq

/-- The handler: the table name; the `*sql.DB` session is modelled by the
explicit `Table` state every operation threads. -/
structure Handler where
  tableName : GoString
deriving DecidableEq

/-- Go `%v` of a supported scalar, which is also the text an SQL TEXT column
stores for its quoted literal.  The `other` case is never reached by the
verified operations: statement building rejects unsupported values first. -/
def sprintV : Value → GoString
  | .int n => intText n
  | .float text => text
  | .bool b => (if b then "true" else "false").data
  | .str s => s
  | .time t => goTimeString t
  | .other => []

/-- A stored row: the `id`, `etag` and `updated` columns plus the remaining
columns (`created` and the payload fields) as column/text pairs. -/
structure Row where
  id : GoString
  etag : GoString
  updated : GoString
  cols : List (GoString × GoString)
deriving DecidableEq

abbrev Table := List Row

/-- Trailing part of `getSelect`: optional LIMIT (when `limit >= 0`), optional
OFFSET (when `offset > 0`), and the closing semicolon. -/
def finishSelect (s : GoString) (offset limit : Int) : GoString :=
  s ++ (if 0 ≤ limit then " LIMIT ".data ++ intText limit else [])
    ++ (if 0 < offset then " OFFSET ".data ++ intText offset else [])
    ++ [';']

/-- `getSelect` (part_002): `SELECT * FROM <table>`, a WHERE clause when the
filter compiles non-empty, an ORDER BY clause when a sort is set, then
pagination. -/
def getSelect (h : Handler) (l : Lookup) (offset limit : Int) : GoRes GoString :=
  match getQuery l with
  | .err e => .err e
  | .panic => .panic
  | .ok q =>
    let s1 := "SELECT * FROM ".data ++ h.tableName
      ++ (if q = [] then [] else " WHERE ".data ++ q)
    match l.sort with
    | none => .ok (finishSelect s1 offset limit)
    | some _ =>
      match getSort l with
      | .ok o => .ok (finishSelect (s1 ++ " ORDER BY ".data ++ o) offset limit)
      | .err e => .err e
      | .panic => .panic

/-- The payload loop of `getInsert`: the column-name and value-literal
accumulators (each entry followed by a comma), converting errors to
NotImplemented. -/
def insertCols : List (GoString × Value) → Except Err (GoString × GoString)
  | [] => .ok ([], [])
  | (k, v) :: rest =>
    match valueToString v with
    | .error _ => .error .notImplemented
    | .ok val =>
      match insertCols rest with
      | .error e => .error e
      | .ok (as, zs) => .ok (k ++ [','] ++ as, val ++ [','] ++ zs)

/-- `getInsert`: `INSERT INTO <table>(etag,updated,<keys>) VALUES(<etag>,<updated>,<values>);`
with the trailing comma of each half sliced off before the closing parenthesis. -/
def getInsert (h : Handler) (i : Item) : Except Err GoString :=
  match valueToString (.str i.etag) with
  | .error _ => .error .notImplemented
  | .ok etag =>
  match valueToString (.time i.updated) with
  | .error _ => .error .notImplemented
  | .ok upd =>
  match insertCols i.payload with
  | .error e => .error e
  | .ok (as, zs) =>
    let a := "INSERT INTO ".data ++ h.tableName ++ "(etag,updated,".data ++ as
    let z := "VALUES(".data ++ etag ++ [','] ++ upd ++ [','] ++ zs
    .ok (a.dropLast ++ [')', ' '] ++ z.dropLast ++ [')', ';'])

/-- The payload loop of `getUpdate`: `<key>=<literal>,` for every payload
entry except `id`. -/
def updateSets : List (GoString × Value) → Except Err GoString
  | [] => .ok []
  | (k, v) :: rest =>
    if k = "id".data then updateSets rest
    else
      match valueToString v with
      | .error _ => .error .notImplemented
      | .ok val =>
        match updateSets rest with
        | .error e => .error e
        | .ok s => .ok (k ++ ['='] ++ val ++ [','] ++ s)

/-- `getUpdate`: `UPDATE OR ROLLBACK <table> SET etag=<new>,updated=<new>,<sets>
WHERE id=<original id> AND etag=<original etag>;` with the trailing comma of
the SET half sliced off. -/
def getUpdate (h : Handler) (i o : Item) : Except Err GoString :=
  match valueToString o.id with
  | .error _ => .error .notImplemented
  | .ok idv =>
  match valueToString (.str o.etag) with
  | .error _ => .error .notImplemented
  | .ok oEtag =>
  match valueToString (.str i.etag) with
  | .error _ => .error .notImplemented
  | .ok iEtag =>
  match valueToString (.time i.updated) with
  | .error _ => .error .notImplemented
  | .ok upd =>
  match updateSets i.payload with
  | .error e => .error e
  | .ok sets =>
    let a := "UPDATE OR ROLLBACK ".data ++ h.tableName ++ " SET etag=".data ++ iEtag
      ++ ",updated=".data ++ upd ++ [','] ++ sets
    let z := "WHERE id=".data ++ idv ++ " AND etag=".data ++ oEtag ++ [';']
    .ok (a.dropLast ++ [' '] ++ z)

/-- The engine error SQLite reports when an INSERT collides with the `id`
primary key. -/
def uniqueErr (h : Handler) : Err :=
  .engine ("UNIQUE constraint failed: ".data ++ h.tableName ++ ".id".data)

/-- SQLite semantics of executing the INSERT statement `getInsert` builds:
the new row's `id` column receives the payload's `id` value (rest-layer
guarantees the payload carries one), `etag` and `updated` the item's, and
every other payload entry its column; a duplicate primary key fails with
the engine's uniqueness-constraint error and leaves the table unchanged. -/
def execInsert (h : Handler) (i : Item) (t : Table) : Except Err Table :=
  let idText := sprintV (((i.payload.lookup "id".data).getD .other))
  if t.any (fun r => r.id == idText) then .error (uniqueErr h)
  else
    .ok (t ++ [{ id := idText, etag := i.etag, updated := goTimeString i.updated,
                 cols := (i.payload.filter (fun kv => !(kv.1 == "id".data))).map
                   (fun kv => (kv.1, sprintV kv.2)) }])

/-- `Handler.Insert` (sqlite3.go / part_002).  The source opens a transaction
`txPtr` but issues every INSERT through `h.session.Exec`, i.e. on the
session in autocommit mode, outside that transaction; `txPtr.Rollback()` and
`txPtr.Commit()` therefore have no effect on the rows already written, and
the model applies each executed INSERT directly to the table.  On the first
build or execution failure the loop returns the failure with the table in
whatever state the earlier statements left it. -/
def Handler.Insert (h : Handler) (items : List Item) (t : Table) : GoRes Unit × Table :=
  match items with
  | [] => (.ok (), t)
  | i :: rest =>
    match getInsert h i with
    | .error e => (.err e, t)
    | .ok _ =>
      match execInsert h i t with
      | .error e => (.err e, t)
      | .ok t2 => Handler.Insert h rest t2

/-- `compareEtags` (part_002): `QueryRow("SELECT etag ... WHERE id='%v'")`
reads the first row whose id matches; no row is NotFound, a differing etag
is Conflict. -/
def compareEtags (h : Handler) (id : Value) (origEtag : GoString) (t : Table) :
    Except Err Unit :=
  match t.find? (fun r => r.id == sprintV id) with
  | none => .error .notFound
  | some r => if r.etag = origEtag then .ok () else .error .conflict

/-- Assignment of one SET column: replace the column's text, or add the
column when absent. -/
def setCol (k v : GoString) : List (GoString × GoString) → List (GoString × GoString)
  | [] => [(k, v)]
  | (k0, v0) :: rest => if k0 == k then (k0, v) :: rest else (k0, v0) :: setCol k v rest

/-- The effect of the SET clause of `getUpdate` on one row: `etag` and
`updated` from the new item, then every payload column except `id`. -/
def applySets (i : Item) (r : Row) : Row :=
  { r with etag := i.etag, updated := goTimeString i.updated,
           cols := (i.payload.filter (fun kv => !(kv.1 == "id".data))).foldl
             (fun cs kv => setCol kv.1 (sprintV kv.2) cs) r.cols }

/-- SQLite semantics of the guarded
`UPDATE OR ROLLBACK ... WHERE id=<o.id> AND etag=<o.etag>` statement built
by `getUpdate`: every row matching both the id and the original etag is
overwritten; matching zero rows is a successful no-op (the statement reports
no error, and the source never inspects RowsAffected). -/
def execGuardedUpdate (i o : Item) (t : Table) : Table :=
  t.map (fun r =>
    if r.id == sprintV o.id && r.etag == o.etag then applySets i r else r)

/-- The statement-building and etag pre-check sequence of `Handler.Update`:
the (discarded) select for the original id, `compareEtags` against the
table, then the guarded-update build; the first failure wins. -/
def updatePrecheck (h : Handler) (item original : Item) (t : Table) : GoRes Unit :=
  match getSelect h { filter := [.eq "id".data original.id], sort := none } 1 1 with
  | .err e => .err e
  | .panic => .panic
  | .ok _ =>
    match compareEtags h original.id original.etag t with
    | .error e => .err e
    | .ok () =>
      match getUpdate h item original with
      | .error e => .err e
      | .ok _ => .ok ()

/-- `Handler.Update` (part_002) with its interleaving point explicit: the
pre-check reads the table state `t0` seen by its session calls, and the
guarded UPDATE executes against the state `t1` current at execution time.
A sequential call has `t1 = t0` (`Handler.Update`); a concurrent writer
committing between the two session calls is represented by `t1 ≠ t0`.
After a successful execution the source commits and returns nil without
inspecting how many rows the guarded statement affected. -/
def Handler.UpdateRace (h : Handler) (item original : Item) (t0 t1 : Table) :
    GoRes Unit × Table :=
  match updatePrecheck h item original t0 with
  | .ok () => (.ok (), execGuardedUpdate item original t1)
  | .err e => (.err e, t1)
  | .panic => (.panic, t1)

/-- `Handler.Update` (part_002): the sequential call, where no other writer
intervenes between the pre-check and the guarded execution. -/
def Handler.Update (h : Handler) (item original : Item) (t : Table) :
    GoRes Unit × Table :=
  Handler.UpdateRace h item original t t

/-- `Handler.Delete` (part_002): `compareEtags` for the item's id and etag,
then `DELETE FROM <table> WHERE id = '<id>'`, which removes every row whose
id matches; failures roll back, leaving the table unchanged (the delete
statement, like the others, runs on the session). -/
def Handler.Delete (h : Handler) (item : Item) (t : Table) : GoRes Unit × Table :=
  match compareEtags h item.id item.etag t with
  | .error e => (.err e, t)
  | .ok () => (.ok (), t.filter (fun r => !(r.id == sprintV item.id)))

/-- Read exactly `w` decimal digits, most significant first. -/
def readNum : Nat → Nat → GoString → Option (Nat × GoString)
  | 0, acc, l => some (acc, l)
  | w + 1, acc, c :: l =>
    if c.isDigit then readNum w (acc * 10 + (c.toNat - 48)) l else none
  | _ + 1, _, [] => none

/-- Consume one expected literal character of the layout. -/
def expectCh (c : Char) : GoString → Option GoString
  | d :: l => if d = c then some l else none
  | [] => none

/-- Value of a digit string, most significant first. -/
def digitsVal (l : GoString) : Nat := l.foldl (fun a c => a * 10 + (c.toNat - 48)) 0

/-- Optional fractional second: when a dot follows the seconds, a maximal
nonempty run of at most nine digits, scaled to nanoseconds. -/
def parseFrac : GoString → Option (Nat × GoString)
  | '.' :: l =>
    let ds := l.takeWhile Char.isDigit
    if ds.length = 0 ∨ 9 < ds.length then none
    else some (digitsVal ds * 10 ^ (9 - ds.length), l.drop ds.length)
  | l => some (0, l)

/-- The sign of the numeric zone offset. -/
def parseSign : GoString → Option (Bool × GoString)
  | '+' :: l => some (false, l)
  | '-' :: l => some (true, l)
  | _ => none

def isUpperAZ (c : Char) : Bool := 65 ≤ c.toNat && c.toNat ≤ 90

/-- The zone abbreviation, following Go's `parseTimeZone` for the letter
forms: a value starting with `GMT` consumes exactly those three letters
(the signed `GMT±h` extension never occurs after a printed abbreviation);
otherwise a maximal run of upper-case letters is accepted when it is three
long, four long ending in `T` (or the special `WITA`), or five long ending
in `T` — any other run, including six or more letters, fails.  Go's
remaining special forms (`ChST`/`MeST`, signed numeric abbreviations)
contain non-upper characters; no proof relies on them. -/
def parseZone (l : GoString) : Option (GoString × GoString) :=
  if l.take 3 = "GMT".data then some ("GMT".data, l.drop 3)
  else if (l.takeWhile isUpperAZ).length = 3 then some (l.takeWhile isUpperAZ, l.drop 3)
  else if (l.takeWhile isUpperAZ).length = 4 ∧
      ((l.takeWhile isUpperAZ).getD 3 ' ' = 'T' ∨ l.takeWhile isUpperAZ = "WITA".data) then
    some (l.takeWhile isUpperAZ, l.drop 4)
  else if (l.takeWhile isUpperAZ).length = 5 ∧ (l.takeWhile isUpperAZ).getD 4 ' ' = 'T' then
    some (l.takeWhile isUpperAZ, l.drop 5)
  else none

def isLeap (y : Nat) : Bool := (y % 4 == 0 && !(y % 100 == 0)) || y % 400 == 0

def daysInMonth (y m : Nat) : Nat :=
  if m = 2 then (if isLeap y then 29 else 28)
  else if m = 4 ∨ m = 6 ∨ m = 9 ∨ m = 11 then 30
  else 31

/-- Go `time.Parse` at the fixed layout `"2006-01-02 15:04:05.99999999 -0700 MST"`
used by `newItem`: the dashed date, the clock, an optional fractional
second, the signed four-digit offset, the zone abbreviation per
`parseZone`, and nothing after it (trailing text, such as a monotonic
clock field, is an error).
Field ranges are validated as Go does; a parsed time never carries a
monotonic reading. -/
def goTimeParse (l : GoString) : Option GoTime :=
  match readNum 4 0 l with
  | none => none
  | some (y, l) =>
  match expectCh '-' l with
  | none => none
  | some l =>
  match readNum 2 0 l with
  | none => none
  | some (mo, l) =>
  match expectCh '-' l with
  | none => none
  | some l =>
  match readNum 2 0 l with
  | none => none
  | some (d, l) =>
  match expectCh ' ' l with
  | none => none
  | some l =>
  match readNum 2 0 l with
  | none => none
  | some (hh, l) =>
  match expectCh ':' l with
  | none => none
  | some l =>
  match readNum 2 0 l with
  | none => none
  | some (mi, l) =>
  match expectCh ':' l with
  | none => none
  | some l =>
  match readNum 2 0 l with
  | none => none
  | some (ss, l) =>
  match parseFrac l with
  | none => none
  | some (ns, l) =>
  match expectCh ' ' l with
  | none => none
  | some l =>
  match parseSign l with
  | none => none
  | some (neg, l) =>
  match readNum 2 0 l with
  | none => none
  | some (zh, l) =>
  match readNum 2 0 l with
  | none => none
  | some (zm, l) =>
  match expectCh ' ' l with
  | none => none
  | some l =>
  match parseZone l with
  | none => none
  | some (zn, l) =>
  if l = [] ∧ 1 ≤ mo ∧ mo ≤ 12 ∧ 1 ≤ d ∧ d ≤ daysInMonth y mo ∧ hh ≤ 23 ∧ mi ≤ 59
      ∧ ss ≤ 59 ∧ zm ≤ 59 then
    some { year := y, month := mo, day := d, hour := hh, minute := mi, second := ss,
           nanos := ns, negOff := neg, offHour := zh, offMin := zm, zone := zn,
           mono := none }
  else none

/-- A column value as `Find` hands it to `newItem` after converting byte
slices to strings: NULL, text, or a numeric driver value (carried with its
rendering, which `newItem` never consumes). -/
inductive Col where
  | null
  | text (s : GoString)
  | int64 (n : Int)
  | float64 (text : GoString)
deriving DecidableEq

/-- A payload cell after `newItem`: the raw column value, or the parsed
`created` timestamp the source writes back into the map. -/
inductive CellVal where
  | col (c : Col)
  | time (t : GoTime)
deriving DecidableEq

/-- The item `newItem` produces: identity column, etag string, parsed
`updated` time, and the remaining columns as payload. -/
structure MappedItem where
  id : Col
  etag : GoString
  updated : GoTime
  payload : List (GoString × CellVal)
deriving DecidableEq

/-- Reading a Go map at a missing key yields the zero value (a nil
interface), modelled as `Col.null`. -/
def rowGet (row : List (GoString × Col)) (k : GoString) : Col :=
  (row.lookup k).getD .null

def rowDelete (row : List (GoString × Col)) (k : GoString) : List (GoString × Col) :=
  row.filter (fun kv => !(kv.1 == k))

/-- Map assignment `row["created"] = ct`: replace the cell or add the key. -/
def cellSet (k : GoString) (v : CellVal) :
    List (GoString × CellVal) → List (GoString × CellVal)
  | [] => [(k, v)]
  | (k0, v0) :: rest => if k0 == k then (k0, v) :: rest else (k0, v0) :: cellSet k v rest

/-- The error `time.Parse` returns on text that does not match the layout
(the source propagates it unchanged; no claim inspects the message). -/
def parseTimeErr : Err := .engine "parsing time: layout mismatch".data

/-- `newItem` (part_002): reads `id`, `etag`, `created` and `updated` from the
row map, deletes `etag`/`updated`, parses `created` and `updated` with the
fixed layout, stores the parsed `created` back into the map, and builds the
item.  The expressions `created.(string)`, `updated.(string)` and
`etag.(string)` are unchecked type assertions: on a nil (missing column) or
non-string value they are a runtime panic, in that evaluation order. -/
def newItem (row : List (GoString × Col)) : GoRes MappedItem :=
  let id := rowGet row "id".data
  let etag := rowGet row "etag".data
  let created := rowGet row "created".data
  let updated := rowGet row "updated".data
  let row1 := rowDelete (rowDelete row "etag".data) "updated".data
  match created with
  | .text cs =>
    match goTimeParse cs with
    | none => .err parseTimeErr
    | some ct =>
      let row2 := cellSet "created".data (.time ct) (row1.map (fun kv => (kv.1, CellVal.col kv.2)))
      match updated with
      | .text us =>
        match goTimeParse us with
        | none => .err parseTimeErr
        | some tu =>
          match etag with
          | .text es => .ok { id := id, etag := es, updated := tu, payload := row2 }
          | _ => .panic
      | _ => .panic
  | _ => .panic

/-! Concrete fixtures used by the claim theorems. -/

def hUsers : Handler := { tableName := "users".data }

def sampleTime : GoTime :=
  { year := 2026, month := 10, day := 11, hour := 1, minute := 2, second := 3,
    nanos := 0, negOff := false, offHour := 0, offMin := 0,
    zone := "UTC".data, mono := none }

def itemA : Item :=
  { id := .str "a".data, etag := "e1".data, updated := sampleTime,
    payload := [("id".data, .str "a".data), ("f1".data, .str "x".data)] }

def itemBad : Item :=
  { id := .str "b".data, etag := "e2".data, updated := sampleTime,
    payload := [("id".data, .str "b".data), ("f1".data, .other)] }

def rowA : Row :=
  { id := "a".data, etag := "e0".data,
    updated := goTimeString sampleTime, cols := [] }

def origItem : Item :=
  { id := .str "a".data, etag := "e0".data, updated := sampleTime,
    payload := [("id".data, .str "a".data)] }

def replItem : Item :=
  { id := .str "a".data, etag := "e9".data, updated := sampleTime,
    payload := [("id".data, .str "a".data), ("f1".data, .str "y".data)] }

def rowRaced : Row :=
  { id := "a".data, etag := "eX".data,
    updated := goTimeString sampleTime, cols := [] }

def itemQuote : Item :=
  { id := .str "o1".data, etag := "e1".data, updated := sampleTime,
    payload := [("id".data, .str "o1".data), ("name".data, .str "O'Brien".data)] }

def rowNoCreated : List (GoString × Col) :=
  [("id".data, .text "a".data), ("etag".data, .text "e0".data),
   ("updated".data, .text (goTimeString sampleTime))]

def rowBadCreated : List (GoString × Col) :=
  rowNoCreated ++ [("created".data, Col.text "garbage".data)]

def monoTime : GoTime := { sampleTime with mono := some "+0.000000001".data }

def abceTime : GoTime := { sampleTime with zone := "ABCE".data }

theorem likeEsc_append (a b : GoString) : likeEsc (a ++ b) = likeEsc a ++ likeEsc b := by
  induction a with
  | nil => rfl
  | cons x l ih => simp [likeEsc, ih]

/-- Compilation of one sort entry: a minus prefix becomes a DESC suffix. -/
def sortEntry : GoString → GoString
  | [] => []
  | c :: cs => if c = '-' then cs ++ " DESC".data else c :: cs

/-- Comma-joined entries in the given order. -/
def commaJoin : List GoString → GoString
  | [] => []
  | [s] => s
  | s :: rest => s ++ [','] ++ commaJoin rest

theorem dropLast_append_single (a : GoString) (c : Char) : (a ++ [c]).dropLast = a := by
  induction a with
  | nil => rfl
  | cons x l ih =>
    cases l with
    | nil => rfl
    | cons y r => simpa using ih

theorem dropLast_append_ne_nil (a b : GoString) (h : b ≠ []) :
    (a ++ b).dropLast = a ++ b.dropLast := by
  induction a with
  | nil => rfl
  | cons x l ih =>
    have hne : l ++ b ≠ [] := fun he => h (List.append_eq_nil.mp he).2
    rcases List.exists_cons_of_ne_nil hne with ⟨y, r, hyr⟩
    simp only [List.cons_append]
    rw [hyr]
    rw [show (x :: y :: r).dropLast = x :: (y :: r).dropLast from rfl]
    rw [← hyr, ih]

theorem joinSeps_comma_ne_nil (x : GoString) (rest : List GoString) :
    joinSeps [','] (x :: rest) ≠ [] := by
  simp [joinSeps]

theorem joinSeps_comma_dropLast (L : List GoString) (h : L ≠ []) :
    (joinSeps [','] L).dropLast = commaJoin L := by
  induction L with
  | nil => exact absurd rfl h
  | cons x rest ih =>
    cases rest with
    | nil => simp [joinSeps, commaJoin, dropLast_append_single]
    | cons y r =>
      have hne := joinSeps_comma_ne_nil y r
      calc (joinSeps [','] (x :: y :: r)).dropLast
          = (x ++ [','] ++ joinSeps [','] (y :: r)).dropLast := by simp [joinSeps]
        _ = x ++ [','] ++ (joinSeps [','] (y :: r)).dropLast :=
            dropLast_append_ne_nil _ _ hne
        _ = x ++ [','] ++ commaJoin (y :: r) := by rw [ih (by simp)]
        _ = commaJoin (x :: y :: r) := by simp [commaJoin]

theorem sortLoop_ok (l : List GoString) (h : ∀ s ∈ l, s ≠ ([] : GoString)) :
    sortLoop l = GoRes.ok (joinSeps [','] (l.map sortEntry)) := by
  induction l with
  | nil => rfl
  | cons s rest ih =>
    cases s with
    | nil => exact absurd rfl (h [] (by simp))
    | cons c cs =>
      have := ih (fun x hx => h x (by simp [hx]))
      simp [sortLoop, this, joinSeps, sortEntry]

/-- C1: evaluation at the failing input. An Insert of two items in which the
second item's statement build fails does return the failure, but the first
item's INSERT — executed through the session in autocommit mode, outside the
transaction the rollback acts on — stays committed: the table is no longer
in its pre-call state, so a partial insert is observable, contradicting the
claim. -/
theorem insert_partial_commit_observable :
    (Handler.Insert hUsers [itemA, itemBad] []).1 = GoRes.err Err.notImplemented ∧
    (Handler.Insert hUsers [itemA, itemBad] []).2 ≠ ([] : Table) :=
  ⟨by decide, by decide⟩

/-- C3: evaluation at the failing input. The etag pre-check passes against
the table state it reads, a concurrent writer then changes the row's etag,
the guarded UPDATE consequently affects zero rows — and Update commits and
returns success (a nil error), not the Conflict error the claim requires. -/
theorem update_zero_row_race_returns_success :
    Handler.UpdateRace hUsers replItem origItem [rowA] [rowRaced] =
      (GoRes.ok (), [rowRaced]) ∧
    GoRes.ok () ≠ GoRes.err Err.conflict :=
  ⟨by decide, by decide⟩

/-- C4: evaluation at the failing input. Inserting an item whose identity
already exists in the table returns the engine's raw uniqueness-constraint
error unchanged — a generic execution error, not the Conflict error the
claim requires (the table itself is left unchanged). -/
theorem insert_duplicate_returns_engine_error :
    Handler.Insert hUsers [itemA] [rowA] = (GoRes.err (uniqueErr hUsers), [rowA]) ∧
    GoRes.err (α := Unit) (uniqueErr hUsers) ≠ GoRes.err Err.conflict :=
  ⟨by decide, by decide⟩

/-- C6: evaluation at the failing input. Compiling an And or Or group with an
empty child list does not return an error: the slice `s[:len(s)-5]` (resp.
`-4`) of the empty accumulator has a negative bound and panics, so the claim
that compilation fails with an error and does not crash is violated. -/
theorem empty_group_panics :
    translateQuery [Predicate.and []] = GoRes.panic ∧
    translateQuery [Predicate.or []] = GoRes.panic :=
  ⟨by decide, by decide⟩

/-- C7: evaluation at the failing input. A row whose `created` column is
missing (a nil map read) makes `newItem` panic on the `created.(string)`
type assertion instead of returning an error value, violating the claim's
"nor crashes" part; an unparseable `created` text, by contrast, does return
the parse failure as an error. -/
theorem newitem_missing_created_panics :
    newItem rowNoCreated = GoRes.panic ∧
    newItem rowBadCreated = GoRes.err parseTimeErr :=
  ⟨by decide, by decide⟩

/-- C10: the string codec emits exactly a single quote, the string verbatim —
any embedded single quote included, with no escaping or doubling — and a
closing quote; and such a quote flows unmodified into statement text, as the
INSERT built for a payload value containing a quote shows. -/
theorem string_literal_unescaped_quote :
    (∀ s : GoString, valueToString (Value.str s) = Except.ok (squote :: s ++ [squote])) ∧
    getInsert hUsers itemQuote =
      Except.ok "INSERT INTO users(etag,updated,id,name) VALUES('e1','2026-10-11 01:02:03 +0000 UTC','o1','O'Brien');".data :=
  ⟨fun _ => rfl, rfl⟩

/-- The two replacements of the string Equal/NotEqual case act only inside
the quotes: on a quoted value they yield the quoted wildcard translation. -/
theorem quoted_replace (s : GoString) :
    goReplace '_' ['\\', '_'] (goReplace '*' ['%'] (squote :: s ++ [squote]))
      = squote :: likeEsc s ++ [squote] := by
  have h : goReplace '_' ['\\', '_'] (goReplace '*' ['%'] (squote :: s ++ [squote]))
      = likeEsc (squote :: s ++ [squote]) :=
    goReplace_star_underscore (squote :: s ++ [squote])
  rw [h]
  simp [likeEsc, likeEsc_append, show ¬ squote = '*' by decide,
    show ¬ squote = '_' by decide]

/-- C5: an Equal (resp. NotEqual) filter leaf on a string value compiles to a
`LIKE` (resp. `NOT LIKE`) pattern with an explicit `ESCAPE '\'` clause, in
which every `*` of the value is replaced by the SQL wildcard `%` and every
`_` by the escaped literal `\_`; in particular the claim's two concrete
patterns. -/
theorem equal_string_like_escape :
    (∀ f s : GoString, translateQuery [Predicate.eq f (Value.str s)] =
      GoRes.ok (f ++ " LIKE ".data ++ (squote :: likeEsc s ++ [squote])
        ++ " ESCAPE '\\'".data)) ∧
    (∀ f s : GoString, translateQuery [Predicate.ne f (Value.str s)] =
      GoRes.ok (f ++ " NOT LIKE ".data ++ (squote :: likeEsc s ++ [squote])
        ++ " ESCAPE '\\'".data)) ∧
    translateQuery [Predicate.eq "f1".data (Value.str "foo_bar".data)] =
      GoRes.ok "f1 LIKE 'foo\\_bar' ESCAPE '\\'".data ∧
    translateQuery [Predicate.eq "f1".data (Value.str "foo*bar".data)] =
      GoRes.ok "f1 LIKE 'foo%bar' ESCAPE '\\'".data := by
  refine ⟨fun f s => ?_, fun f s => ?_, by decide, by decide⟩ <;>
  · rw [translateQuery_singleton]
    simp only [transPred, valueToString]
    rw [quoted_replace]

/-- C9: sort compilation is deterministic and order preserving: the empty
specification compiles to the identity field `id`; otherwise each
minus-prefixed entry compiles to `<field> DESC`, each bare entry to itself,
and the entries are comma-joined in the given order — concretely,
`["-f","f"]` compiles to `f DESC,f`. -/
theorem translate_sort_spec :
    translateSort [] = GoRes.ok "id".data ∧
    (∀ l : List GoString, l ≠ [] → (∀ s ∈ l, s ≠ ([] : GoString)) →
      translateSort l = GoRes.ok (commaJoin (l.map sortEntry))) ∧
    translateSort ["-f".data, "f".data] = GoRes.ok "f DESC,f".data := by
  refine ⟨by decide, fun l hne h => ?_, by decide⟩
  have hmapne : l.map sortEntry ≠ [] := by
    simpa using hne
  simp only [translateSort, if_neg hne, sortLoop_ok l h,
    joinSeps_comma_dropLast (l.map sortEntry) hmapne]

/-- C9 witness: the general entry statement applied at a concrete
specification. -/
theorem translate_sort_spec_witness :
    translateSort ["-g".data, "g".data, "h".data] = GoRes.ok "g DESC,g,h".data := by
  rw [translate_sort_spec.2.1 ["-g".data, "g".data, "h".data] (by decide) (by decide)]
  decide

theorem valueToString_ok (v : Value) (h : v ≠ Value.other) :
    ∃ s, valueToString v = .ok s := by
  cases v with
  | other => exact absurd rfl h
  | int n => exact ⟨_, rfl⟩
  | float x => exact ⟨_, rfl⟩
  | bool b => exact ⟨_, rfl⟩
  | str s => exact ⟨_, rfl⟩
  | time t => exact ⟨_, rfl⟩

theorem updateSets_ok (pl : List (GoString × Value))
    (h : ∀ kv ∈ pl, kv.2 ≠ Value.other) : ∃ s, updateSets pl = .ok s := by
  induction pl with
  | nil => exact ⟨[], rfl⟩
  | cons kv rest ih =>
    obtain ⟨r, hr⟩ := ih (fun x hx => h x (by simp [hx]))
    obtain ⟨k, v⟩ := kv
    by_cases hk : k = "id".data
    · exact ⟨r, by simp [updateSets, hk, hr]⟩
    · obtain ⟨sv, hsv⟩ := valueToString_ok v (h (k, v) (by simp))
      refine ⟨k ++ ['='] ++ sv ++ [','] ++ r, ?_⟩
      simp [updateSets, hk, hsv, hr]

theorem getUpdate_ok (h : Handler) (i o : Item) (oid : GoString)
    (hoid : o.id = Value.str oid) (henc : ∀ kv ∈ i.payload, kv.2 ≠ Value.other) :
    ∃ s, getUpdate h i o = .ok s := by
  obtain ⟨s, hs⟩ := updateSets_ok i.payload henc
  simp only [getUpdate, hoid, valueToString, hs]
  exact ⟨_, rfl⟩

theorem getSelect_id_ok (h : Handler) (oid : GoString) :
    ∃ s, getSelect h { filter := [.eq "id".data (Value.str oid)], sort := none } 1 1
      = .ok s := by
  have hq : getQuery { filter := [.eq "id".data (Value.str oid)], sort := none }
      = .ok ("id".data ++ " LIKE ".data
          ++ goReplace '_' ['\\', '_'] (goReplace '*' ['%'] (squote :: oid ++ [squote]))
          ++ " ESCAPE '\\'".data) := by
    simp [getQuery, translateQuery_singleton, transPred, valueToString]
  simp only [getSelect, hq]
  exact ⟨_, rfl⟩

theorem compareEtags_str (h : Handler) (oid etag : GoString) (t : Table) :
    compareEtags h (Value.str oid) etag t =
      match t.find? (fun r => r.id == oid) with
      | none => .error .notFound
      | some r => if r.etag = etag then .ok () else .error .conflict := rfl

theorem applySets_id (i : Item) (r : Row) : (applySets i r).id = r.id := rfl

theorem find_map_pres (p : Row → Bool) (f : Row → Row) (hf : ∀ r, p (f r) = p r)
    (t : Table) : (t.map f).find? p = (t.find? p).map f := by
  induction t with
  | nil => rfl
  | cons r rest ih =>
    by_cases hp : p r
    · simp [List.find?_cons, hf, hp]
    · simp [List.find?_cons, hf, hp, ih]

theorem execGuardedUpdate_find (i o : Item) (t : Table) (oid : GoString)
    (hoid : o.id = Value.str oid) :
    (execGuardedUpdate i o t).find? (fun r => r.id == oid) =
      (t.find? (fun r => r.id == oid)).map
        (fun r => if r.id == sprintV o.id && r.etag == o.etag then applySets i r else r) := by
  unfold execGuardedUpdate
  apply find_map_pres
  intro r
  by_cases hc : (r.id == sprintV o.id && r.etag == o.etag) = true
  · rw [if_pos hc, applySets_id]
  · rw [if_neg hc]

/-- C2: optimistic concurrency of Update and Delete. With the stored row for
the id present but carrying a different etag than the supplied original, both
operations return Conflict and leave the table unchanged; with no row for the
id both return NotFound and leave the table unchanged; with a matching id and
etag both succeed, and after a successful Update the stored etag equals the
new item's etag, differing from the original one. (The items are well formed:
string ids, encodable payload values, and a fresh etag on the new item.) -/
theorem update_delete_optimistic_concurrency
    (h : Handler) (item original : Item) (t : Table) (oid pid : GoString)
    (hoid : original.id = Value.str oid)
    (hpid : item.id = Value.str pid)
    (henc : ∀ kv ∈ item.payload, kv.2 ≠ Value.other)
    (hetag : item.etag ≠ original.etag) :
    (t.find? (fun r => r.id == oid) = none →
      Handler.Update h item original t = (GoRes.err Err.notFound, t)) ∧
    (∀ row, t.find? (fun r => r.id == oid) = some row → row.etag ≠ original.etag →
      Handler.Update h item original t = (GoRes.err Err.conflict, t)) ∧
    (∀ row, t.find? (fun r => r.id == oid) = some row → row.etag = original.etag →
      (Handler.Update h item original t).1 = GoRes.ok () ∧
      ∃ row2, (Handler.Update h item original t).2.find? (fun r => r.id == oid) = some row2 ∧
        row2.etag = item.etag ∧ row2.etag ≠ original.etag) ∧
    (t.find? (fun r => r.id == pid) = none →
      Handler.Delete h item t = (GoRes.err Err.notFound, t)) ∧
    (∀ row, t.find? (fun r => r.id == pid) = some row → row.etag ≠ item.etag →
      Handler.Delete h item t = (GoRes.err Err.conflict, t)) ∧
    (∀ row, t.find? (fun r => r.id == pid) = some row → row.etag = item.etag →
      (Handler.Delete h item t).1 = GoRes.ok () ∧
      (Handler.Delete h item t).2.find? (fun r => r.id == pid) = none) := by
  obtain ⟨selS, hsel⟩ : ∃ s,
      getSelect h { filter := [.eq "id".data original.id], sort := none } 1 1 = .ok s := by
    rw [hoid]; exact getSelect_id_ok h oid
  obtain ⟨updS, hupd⟩ := getUpdate_ok h item original oid hoid henc
  have hprecheck : updatePrecheck h item original t =
      (match compareEtags h original.id original.etag t with
       | .error e => .err e
       | .ok _ => .ok ()) := by
    simp only [updatePrecheck, hsel, hupd]
    cases compareEtags h original.id original.etag t with
    | error e => rfl
    | ok u => cases u; rfl
  refine ⟨?_, ?_, ?_, ?_, ?_, ?_⟩
  · intro hfind
    have hc : compareEtags h original.id original.etag t = .error .notFound := by
      rw [hoid, compareEtags_str, hfind]
    have hpre2 : updatePrecheck h item original t = .err Err.notFound := by
      rw [hprecheck, hc]
    unfold Handler.Update Handler.UpdateRace
    rw [hpre2]
  · intro row hfind hne
    have hc : compareEtags h original.id original.etag t = .error .conflict := by
      rw [hoid, compareEtags_str, hfind]
      simp [hne]
    have hpre2 : updatePrecheck h item original t = .err Err.conflict := by
      rw [hprecheck, hc]
    unfold Handler.Update Handler.UpdateRace
    rw [hpre2]
  · intro row hfind heq
    have hc : compareEtags h original.id original.etag t = .ok () := by
      rw [hoid, compareEtags_str, hfind]
      simp [heq]
    have hpre2 : updatePrecheck h item original t = .ok () := by
      rw [hprecheck, hc]
    have hres : Handler.Update h item original t =
        (GoRes.ok (), execGuardedUpdate item original t) := by
      unfold Handler.Update Handler.UpdateRace
      rw [hpre2]
    refine ⟨by rw [hres], ?_⟩
    rw [hres]
    have h1 : (row.id == oid) = true := by simpa using List.find?_some hfind
    have h2 : (row.id == sprintV original.id && row.etag == original.etag) = true := by
      rw [hoid]
      simp only [sprintV, Bool.and_eq_true, beq_iff_eq] at h1 ⊢
      exact ⟨h1, heq⟩
    refine ⟨applySets item row, ?_, rfl, hetag⟩
    rw [execGuardedUpdate_find item original t oid hoid, hfind]
    show some (if row.id == sprintV original.id && row.etag == original.etag
        then applySets item row else row) = some (applySets item row)
    rw [if_pos h2]
  · intro hfind
    have hc : compareEtags h item.id item.etag t = .error .notFound := by
      rw [hpid, compareEtags_str, hfind]
    unfold Handler.Delete
    rw [hc]
  · intro row hfind hne
    have hc : compareEtags h item.id item.etag t = .error .conflict := by
      rw [hpid, compareEtags_str, hfind]
      simp [hne]
    unfold Handler.Delete
    rw [hc]
  · intro row hfind heq
    have hc : compareEtags h item.id item.etag t = .ok () := by
      rw [hpid, compareEtags_str, hfind]
      simp [heq]
    have hres : Handler.Delete h item t =
        (GoRes.ok (), t.filter (fun r => !(r.id == sprintV item.id))) := by
      unfold Handler.Delete
      rw [hc]
    refine ⟨by rw [hres], ?_⟩
    rw [hres]
    rw [List.find?_eq_none]
    intro x hx
    have hfil := (List.mem_filter.mp hx).2
    simp only [hpid, sprintV] at hfil
    simp only [Bool.not_eq_true', beq_eq_false_iff_ne, ne_eq] at hfil
    simp [hfil]

/-- C2 witness: the general theorem applied at a concrete table and items,
covering the successful-Update and stale-etag-Delete outcomes. -/
theorem update_delete_optimistic_concurrency_witness :
    (Handler.Update hUsers replItem origItem [rowA]).1 = GoRes.ok () ∧
    Handler.Delete hUsers replItem [rowA] = (GoRes.err Err.conflict, [rowA]) := by
  have h := update_delete_optimistic_concurrency hUsers replItem origItem [rowA]
    "a".data "a".data (by decide) (by decide) (by decide) (by decide)
  exact ⟨(h.2.2.1 rowA (by decide) (by decide)).1,
    h.2.2.2.2.1 rowA (by decide) (by decide)⟩

theorem digitCh_isDigit (d : Nat) (h : d ≤ 9) : (digitCh d).isDigit = true := by
  interval_cases d <;> decide

theorem digitCh_toNat (d : Nat) (h : d ≤ 9) : (digitCh d).toNat = 48 + d := by
  interval_cases d <;> decide

theorem toDigits_length (w n : Nat) : (toDigits w n).length = w := by
  induction w generalizing n with
  | zero => rfl
  | succ w ih => simp [toDigits, ih]

theorem toDigits_digits (w n : Nat) : ∀ c ∈ toDigits w n, c.isDigit = true := by
  induction w generalizing n with
  | zero => intro c hc; cases hc
  | succ w ih =>
    intro c hc
    rcases List.mem_append.mp hc with hc | hc
    · exact ih (n / 10) c hc
    · rcases List.mem_singleton.mp hc with rfl
      exact digitCh_isDigit _ (Nat.le_of_lt_succ (Nat.mod_lt n (by norm_num)))

theorem readNum_append (L : GoString) (hd : ∀ c ∈ L, c.isDigit = true)
    (acc : Nat) (rest : GoString) :
    readNum L.length acc (L ++ rest) =
      some (L.foldl (fun a c => a * 10 + (c.toNat - 48)) acc, rest) := by
  induction L generalizing acc with
  | nil => rfl
  | cons c l ih =>
    have hc := hd c (by simp)
    simp [readNum, hc, ih (fun x hx => hd x (by simp [hx]))]

theorem mod_pow_succ (n w : Nat) :
    n % 10 ^ (w + 1) = 10 * (n / 10 % 10 ^ w) + n % 10 := by
  have hp : 0 < 10 ^ w := Nat.pos_pow_of_pos w (by norm_num)
  have hpow : 10 ^ (w + 1) = 10 * 10 ^ w := by ring
  rw [hpow]
  conv_lhs => rw [← Nat.div_add_mod n 10]
  rw [Nat.add_mod, Nat.mul_mod_mul_left]
  have hr : n % 10 < 10 := Nat.mod_lt _ (by norm_num)
  have hsmall : n % 10 % (10 * 10 ^ w) = n % 10 :=
    Nat.mod_eq_of_lt (by nlinarith)
  rw [hsmall]
  have hq : n / 10 % 10 ^ w < 10 ^ w := Nat.mod_lt _ hp
  exact Nat.mod_eq_of_lt (by nlinarith)

theorem foldl_toDigits (w : Nat) : ∀ n acc : Nat,
    (toDigits w n).foldl (fun a c => a * 10 + (c.toNat - 48)) acc
      = acc * 10 ^ w + n % 10 ^ w := by
  induction w with
  | zero => intro n acc; simp [toDigits, digitsVal, Nat.mod_one]
  | succ w ih =>
    intro n acc
    have hlt : n % 10 ≤ 9 := Nat.le_of_lt_succ (Nat.mod_lt n (by norm_num))
    rw [toDigits, List.foldl_append, ih (n / 10) acc]
    simp only [List.foldl]
    rw [digitCh_toNat _ hlt, mod_pow_succ]
    ring_nf
    omega

theorem readNum_toDigits (w n : Nat) (hn : n < 10 ^ w) (rest : GoString) :
    readNum w 0 (toDigits w n ++ rest) = some (n, rest) := by
  have h := readNum_append (toDigits w n) (toDigits_digits w n) 0 rest
  rw [toDigits_length] at h
  rw [h, foldl_toDigits]
  simp [Nat.mod_eq_of_lt hn]

theorem expectCh_cons (c : Char) (l : GoString) : expectCh c (c :: l) = some l := by
  simp [expectCh]

theorem mem_dropWhile (p : Char → Bool) (l : GoString) :
    ∀ c ∈ l.dropWhile p, c ∈ l := by
  induction l with
  | nil => intro c hc; cases hc
  | cons x r ih =>
    intro c hc
    rw [List.dropWhile_cons] at hc
    by_cases hx : p x = true
    · simp only [hx, if_true] at hc
      exact List.mem_cons_of_mem x (ih c hc)
    · simp only [hx, if_false] at hc
      exact hc

theorem trimZeroes_subset (L : GoString) : ∀ c ∈ trimZeroes L, c ∈ L := by
  intro c hc
  unfold trimZeroes at hc
  rw [List.mem_reverse] at hc
  have := mem_dropWhile _ _ c hc
  rwa [List.mem_reverse] at this

theorem digitsVal_append_single (M : GoString) (c : Char) :
    digitsVal (M ++ [c]) = digitsVal M * 10 + (c.toNat - 48) := by
  unfold digitsVal
  rw [List.foldl_append]
  rfl

theorem trimZeroes_spec (L : GoString) :
    (trimZeroes L).length ≤ L.length ∧
    digitsVal L = digitsVal (trimZeroes L) * 10 ^ (L.length - (trimZeroes L).length) ∧
    (trimZeroes L = [] → digitsVal L = 0) := by
  induction L using List.reverseRecOn with
  | nil => simp [trimZeroes, digitsVal]
  | append_singleton M c ih =>
    obtain ⟨ihlen, ihval, ihnil⟩ := ih
    by_cases hc : c = '0'
    · subst hc
      have htrim : trimZeroes (M ++ ['0']) = trimZeroes M := by
        unfold trimZeroes
        rw [List.reverse_append]
        simp [List.dropWhile_cons]
      rw [htrim, digitsVal_append_single]
      refine ⟨by simp; omega, ?_, ?_⟩
      · have : ('0'.toNat - 48) = 0 := by decide
        rw [this, ihval]
        have hlen : (trimZeroes M).length ≤ M.length := ihlen
        have : (M ++ ['0']).length - (trimZeroes M).length
            = (M.length - (trimZeroes M).length) + 1 := by simp; omega
        rw [this, pow_succ]
        ring
      · intro hnil
        rw [ihnil hnil]
        simp [ihval, hnil, digitsVal]
    · have htrim : trimZeroes (M ++ [c]) = M ++ [c] := by
        unfold trimZeroes
        rw [List.reverse_append]
        have : (c == '0') = false := by
          simpa using hc
        simp [List.dropWhile_cons, this]
      rw [htrim]
      refine ⟨le_refl _, by simp, ?_⟩
      intro hnil
      exact absurd hnil (by simp)

theorem takeWhile_digits_space (A : GoString) (rest : GoString)
    (hA : ∀ c ∈ A, c.isDigit = true) :
    (A ++ ' ' :: rest).takeWhile Char.isDigit = A := by
  induction A with
  | nil => simp [List.takeWhile_cons]
  | cons x l ih =>
    have hx := hA x (by simp)
    simp [List.takeWhile_cons, hx, ih (fun c hc => hA c (by simp [hc]))]

theorem parseFrac_fracText (n : Nat) (h : n < 10 ^ 9) (rest : GoString) :
    parseFrac (fracText n ++ ' ' :: rest) = some (n, ' ' :: rest) := by
  by_cases h0 : n = 0
  · subst h0
    simp [fracText, parseFrac]
  · have hds : ∀ c ∈ trimZeroes (toDigits 9 n), c.isDigit = true :=
      fun c hc => toDigits_digits 9 n c (trimZeroes_subset _ c hc)
    obtain ⟨hlen, hval, hnil⟩ := trimZeroes_spec (toDigits 9 n)
    rw [toDigits_length] at hlen hval
    have hvalL : digitsVal (toDigits 9 n) = n := by
      have := foldl_toDigits 9 n 0
      unfold digitsVal
      rw [this, Nat.mod_eq_of_lt h]
      ring
    have hne : trimZeroes (toDigits 9 n) ≠ [] := by
      intro he
      exact h0 (hvalL ▸ hnil he)
    have hlpos : 0 < (trimZeroes (toDigits 9 n)).length := List.length_pos.mpr hne
    rw [fracText, if_neg h0]
    show parseFrac ('.' :: (trimZeroes (toDigits 9 n) ++ ' ' :: rest)) = _
    rw [parseFrac, takeWhile_digits_space _ _ hds]
    rw [if_neg (by omega)]
    rw [List.drop_left]
    have : digitsVal (trimZeroes (toDigits 9 n))
        * 10 ^ (9 - (trimZeroes (toDigits 9 n)).length) = n := by
      rw [hval] at hvalL
      exact hvalL
    rw [this]

theorem takeWhile_all (p : Char → Bool) (l : GoString) (h : ∀ c ∈ l, p c = true) :
    l.takeWhile p = l := by
  induction l with
  | nil => rfl
  | cons x r ih =>
    simp [List.takeWhile_cons, h x (by simp), ih (fun c hc => h c (by simp [hc]))]

theorem parseZone_exact (zn : GoString)
    (hup : ∀ c ∈ zn, isUpperAZ c = true)
    (hgmt : zn.take 3 = "GMT".data → zn = "GMT".data)
    (hlen : zn.length = 3 ∨ (zn.length = 4 ∧ (zn.getD 3 ' ' = 'T' ∨ zn = "WITA".data))
      ∨ (zn.length = 5 ∧ zn.getD 4 ' ' = 'T')) :
    parseZone zn = some (zn, []) := by
  unfold parseZone
  by_cases hg : zn.take 3 = "GMT".data
  · rw [if_pos hg, hgmt hg]
    rfl
  · rw [if_neg hg]
    simp only [takeWhile_all isUpperAZ zn hup]
    rcases hlen with h3 | ⟨h4, hT⟩ | ⟨h5, hT⟩
    · rw [if_pos h3, ← h3, List.drop_length]
    · have h3' : ¬ zn.length = 3 := by omega
      rw [if_neg h3', if_pos ⟨h4, hT⟩, ← h4, List.drop_length]
    · have h3' : ¬ zn.length = 3 := by omega
      have h4' : ¬ (zn.length = 4 ∧ (zn.getD 3 ' ' = 'T' ∨ zn = "WITA".data)) := by
        rintro ⟨hc, -⟩
        omega
      rw [if_neg h3', if_neg h4', if_pos ⟨h5, hT⟩, ← h5, List.drop_length]

theorem daysInMonth_le (y m : Nat) : daysInMonth y m ≤ 31 := by
  unfold daysInMonth
  split
  · split <;> omega
  · split <;> omega

/-- Well-formedness of a Go time value: the normalized field ranges every
real `time.Time` exposes, an offset within a day, and a letter-form zone
abbreviation the decoder's `parseZone` accepts — upper-case, either exactly
`GMT` when it starts with those letters, and three letters long, four
ending in `T` (or `WITA`), or five ending in `T`. -/
def GoTime.wf (t : GoTime) : Prop :=
  t.year ≤ 9999 ∧ 1 ≤ t.month ∧ t.month ≤ 12 ∧ 1 ≤ t.day ∧
  t.day ≤ daysInMonth t.year t.month ∧ t.hour ≤ 23 ∧ t.minute ≤ 59 ∧ t.second ≤ 59 ∧
  t.nanos < 10 ^ 9 ∧ t.offHour ≤ 23 ∧ t.offMin ≤ 59 ∧
  (∀ c ∈ t.zone, isUpperAZ c = true) ∧
  (t.zone.take 3 = "GMT".data → t.zone = "GMT".data) ∧
  (t.zone.length = 3 ∨ (t.zone.length = 4 ∧ (t.zone.getD 3 ' ' = 'T' ∨ t.zone = "WITA".data))
    ∨ (t.zone.length = 5 ∧ t.zone.getD 4 ' ' = 'T'))

instance : DecidablePred GoTime.wf := fun t => by
  unfold GoTime.wf
  infer_instance

theorem parseSign_plus (l : GoString) : parseSign ('+' :: l) = some (false, l) := rfl

theorem parseSign_minus (l : GoString) : parseSign ('-' :: l) = some (true, l) := rfl

theorem parseSign_if (neg : Bool) (l : GoString) :
    parseSign ((if neg then '-' else '+') :: l) = some (neg, l) := by
  cases neg
  · rw [if_neg (by simp)]
    exact parseSign_plus l
  · rw [if_pos rfl]
    exact parseSign_minus l

theorem goTimeParse_goTimeString (t : GoTime) (hwf : t.wf) (hmono : t.mono = none) :
    goTimeParse (goTimeString t) = some t := by
  obtain ⟨y, mo, d, hh, mi, ss, ns, neg, zh, zm, zn, mono⟩ := t
  obtain ⟨h1, h2, h3, h4, h5, h6, h7, h8, h9, h10, h11, h12, h13, h14⟩ := hwf
  simp only at h1 h2 h3 h4 h5 h6 h7 h8 h9 h10 h11 h12 h13 h14 hmono
  subst hmono
  have p2 : (10 : ℕ) ^ 2 = 100 := by norm_num
  have p4 : (10 : ℕ) ^ 4 = 10000 := by norm_num
  have hy : y < 10 ^ 4 := by omega
  have hdm := daysInMonth_le y mo
  have hmo2 : mo < 10 ^ 2 := by omega
  have hd2 : d < 10 ^ 2 := by omega
  have hh2 : hh < 10 ^ 2 := by omega
  have hmi2 : mi < 10 ^ 2 := by omega
  have hss2 : ss < 10 ^ 2 := by omega
  have hzh2 : zh < 10 ^ 2 := by omega
  have hzm2 : zm < 10 ^ 2 := by omega
  simp only [goTimeString, List.append_assoc, List.cons_append, List.singleton_append,
    List.nil_append, List.append_nil, goTimeParse,
    readNum_toDigits 4 y hy, readNum_toDigits 2 mo hmo2, readNum_toDigits 2 d hd2,
    readNum_toDigits 2 hh hh2, readNum_toDigits 2 mi hmi2, readNum_toDigits 2 ss hss2,
    expectCh_cons, parseFrac_fracText ns h9]
  rw [parseSign_if]
  simp only [readNum_toDigits 2 zh hzh2, readNum_toDigits 2 zm hzm2, expectCh_cons,
    parseZone_exact zn h12 h13 h14]
  simp [h2, h3, h4, h5, h6, h7, h8, h11]

/-- C8 counterexample: the claim fails at concrete timestamps, on two
independent axes. A time carrying a monotonic clock reading — as every
`time.Now()` result used for the `updated` field does — encodes via the
value codec to its default Go rendering with a trailing ` m=…` field, and
the row mapper's fixed parse layout rejects that text. And a wall-clock
time in a zone whose four-letter abbreviation does not end in `T` (here
`ABCE`) encodes fine, but the layout's zone rule rejects the abbreviation,
so decoding also fails "regardless of time zone" is false. In both cases
decoding fails instead of returning the same timestamp: encode and decode
are not exact inverses for every timestamp. -/
theorem time_roundtrip_failures :
    (valueToString (Value.time monoTime) =
        Except.ok (squote :: goTimeString monoTime ++ [squote]) ∧
      goTimeParse (goTimeString monoTime) = none) ∧
    (valueToString (Value.time abceTime) =
        Except.ok (squote :: goTimeString abceTime ++ [squote]) ∧
      goTimeParse (goTimeString abceTime) = none) :=
  ⟨⟨rfl, by decide⟩, ⟨rfl, by decide⟩⟩

/-- C8 (amended): for every well-formed timestamp without a monotonic clock
reading and whose zone abbreviation is a letter form the decode layout
accepts (three upper-case letters, four or five ending in `T` — or `WITA` —
and `GMT` only by itself), encoding via the value codec and then decoding
the stored text with the row mapper's fixed parse layout succeeds and
yields the same timestamp back, regardless of fractional-second precision
or zone offset. -/
theorem time_roundtrip_wall_clock (t : GoTime) (hwf : t.wf) (hmono : t.mono = none) :
    valueToString (Value.time t) = Except.ok (squote :: goTimeString t ++ [squote]) ∧
    goTimeParse (goTimeString t) = some t :=
  ⟨rfl, goTimeParse_goTimeString t hwf hmono⟩

/-- C8 witness: the amended round trip at a concrete timestamp. -/
theorem time_roundtrip_wall_clock_witness :
    valueToString (Value.time sampleTime) =
      Except.ok (squote :: goTimeString sampleTime ++ [squote]) ∧
    goTimeParse (goTimeString sampleTime) = some sampleTime :=
  time_roundtrip_wall_clock sampleTime (by decide) (by decide)
